import Mathlib

/-!
# UMCP Collapse Calculus — verification of the natural-language specification

Shallow embedding of the UMCP repository (`src/umcp/core/__init__.py`,
`src/umcp/validation/__init__.py`, `src/collapse_validate.py`,
`src/turbo_compat_harness.py`) in Lean 4.

Modelling conventions:
* Python floats are embedded as exact rationals (`ℚ`) wherever the code only
  performs field operations and comparisons, and as reals (`ℝ`) where the code
  evaluates `math.log` / `math.exp`.  Decimal float literals of the source are
  read as the exact decimal rationals they denote.
* Fallible Python code (a `ZeroDivisionError` from `x / 0.0`, a `ValueError`
  from `math.log` on a non-positive argument, a missing required field) is
  embedded as `Option` / `Except`: `none` / `.error` means the Python code
  raises at that point.
* Faces are the literal strings `"normal"` / `"exact"`, as in the source.
-/

namespace UMCP

/-- Embedding of Python `math.log`: raises (`none`) on a non-positive
argument, otherwise returns the real logarithm. -/
noncomputable def pyLog (x : ℝ) : Option ℝ :=
  if 0 < x then some (Real.log x) else none

/-- Source function `clip01` from `umcp.core`: clip a value to `[0, 1]`.
Source: `return max(0.0, min(1.0, value))`. -/
def clip01 (value : ℚ) : ℚ := max 0 (min 1 value)

/-- Face potential `phi(omega, eps, p, face)` from `umcp.core` /
`collapse_validate.py`.  Both logarithm arguments are floor-clamped to
`1e-300` in the source (`math.log(max(..., 1e-300))`), so `phi` is total. -/
noncomputable def phi (omega eps p : ℝ) (face : String) : ℝ :=
  if face = "exact" then
    2 * Real.log (max (1 - omega) 1e-300) + Real.log (max (1 - omega + eps) 1e-300)
  else
    p * Real.log (max (1 - omega) 1e-300)

/-- Pointwise tangent rate `gamma_pointwise(omega, eps, p, face)`.  The
source has NO clamp on the divisors, so Python raises `ZeroDivisionError`
exactly when a divisor is zero; this is the `none` case.  The value itself
is rational. -/
def gamma_pointwise (omega eps p : ℚ) (face : String) : Option ℚ :=
  if face = "exact" then
    if 1 - omega = 0 ∨ 1 - omega + eps = 0 then none
    else some (2 / (1 - omega) + 1 / (1 - omega + eps))
  else
    if 1 - omega = 0 then none
    else some (p / (1 - omega))

/-- Secant rate `gamma_secant(om_minus, om_plus, eps, p, face)` across
`[om_minus, om_plus]` on a fixed face; falls back to the pointwise tangent
at `om_minus` when `|om_plus - om_minus| < 1e-15`.  In the secant branch the
denominator is nonzero, and `phi` is total, so that branch never raises. -/
noncomputable def gamma_secant (omMinus omPlus eps p : ℚ) (face : String) : Option ℝ :=
  if |omPlus - omMinus| < 1e-15 then
    (gamma_pointwise omMinus eps p face).map (fun g => (g : ℝ))
  else
    some ((phi omMinus eps p face - phi omPlus eps p face) / ((omPlus : ℝ) - omMinus))

/-- Transport update `transport_update_U(U_n, om_n, om_np1, alpha, eps, p, face)`: transport
the payload `U` across one step using the secant rate.  Python evaluates
`gamma_secant` first (propagating its exception) and then divides by
`alpha`, raising if `alpha = 0`. -/
noncomputable def transport_update_U (Un : ℝ) (omN omNp1 alpha eps p : ℚ)
    (face : String) : Option ℝ :=
  (gamma_secant omN omNp1 eps p face).bind fun Gam =>
    if alpha = 0 then none
    else some (Un - (1 / (alpha : ℝ)) * Gam * ((omNp1 : ℝ) - (omN : ℝ)))

/-! ## Claim C5 — face equivalence at `eps = 0`, `p = 3` -/

/-- C5 (confirmed).  For every `omega ∈ [0, 1)`,
`phi(omega, 0, 3, "exact") = phi(omega, 0, 3, "normal")`: with `eps = 0`
and `p = 3` the exact face potential `2·ln(1-omega) + ln(1-omega+eps)` is
identical to the normal face potential `p·ln(1-omega)`. -/
theorem C5_face_equivalence (omega : ℝ) (_h0 : 0 ≤ omega) (_h1 : omega < 1) :
    phi omega 0 3 "exact" = phi omega 0 3 "normal" := by
  unfold phi
  rw [if_pos rfl, if_neg (by decide)]
  rw [add_zero]
  ring

/-- Witness for C5 at the concrete drift `omega = 1/2`. -/
theorem C5_face_equivalence_witness :
    phi (1/2) 0 3 "exact" = phi (1/2) 0 3 "normal" :=
  C5_face_equivalence (1/2) (by norm_num) (by norm_num)

/-! ## Claim C8 — secant/pointwise consistency -/

/-- C8 (confirmed).  `gamma_secant(w, w, eps, p, face)` equals
`gamma_pointwise(w, eps, p, face)` for any `w`; more generally, whenever
`|om_plus - om_minus| < 1e-15`, `gamma_secant` returns `gamma_pointwise`
evaluated at `om_minus` (instead of dividing the `phi` difference by the
near-zero denominator). -/
theorem C8_secant_pointwise_consistency :
    (∀ (w eps p : ℚ) (face : String),
      gamma_secant w w eps p face = (gamma_pointwise w eps p face).map (fun g => (g : ℝ))) ∧
    (∀ (omMinus omPlus eps p : ℚ) (face : String), |omPlus - omMinus| < 1e-15 →
      gamma_secant omMinus omPlus eps p face =
        (gamma_pointwise omMinus eps p face).map (fun g => (g : ℝ))) := by
  constructor
  · intro w eps p face
    unfold gamma_secant
    rw [if_pos (by simp; norm_num)]
  · intro omMinus omPlus eps p face h
    unfold gamma_secant
    rw [if_pos h]

/-- Witness for C8's hypothesis branch: the interval `[0, 1e-16]` is below
machine scale, so the secant falls back to the pointwise rate at `0`. -/
theorem C8_secant_pointwise_consistency_witness :
    gamma_secant 0 (1e-16) (1e-8) 3 "normal" =
      (gamma_pointwise 0 (1e-8) 3 "normal").map (fun g => (g : ℝ)) :=
  C8_secant_pointwise_consistency.2 0 (1e-16) (1e-8) 3 "normal" (by norm_num [abs_lt])

/-! ## Claim C10 — poles of `gamma_pointwise` raise -/

/-- C10 (confirmed).  Unlike `phi`, `gamma_pointwise` has no floor clamp
on its divisors: at `omega = 1` the normal face raises `ZeroDivisionError`
(`none`); on the exact face it raises exactly when `1 - omega = 0` or
`1 - omega + eps = 0`; consequently `gamma_secant` (and hence
`transport_update_U`) also raises when `|om_plus - om_minus| < 1e-15` and
`om_minus` sits at such a pole. -/
theorem C10_pointwise_poles_raise :
    (∀ eps p : ℚ, gamma_pointwise 1 eps p "normal" = none) ∧
    (∀ omega eps p : ℚ,
      gamma_pointwise omega eps p "exact" = none ↔
        (1 - omega = 0 ∨ 1 - omega + eps = 0)) ∧
    (∀ (omMinus omPlus eps p : ℚ) (face : String), |omPlus - omMinus| < 1e-15 →
      gamma_pointwise omMinus eps p face = none →
      gamma_secant omMinus omPlus eps p face = none) ∧
    (∀ (Un : ℝ) (omMinus omPlus alpha eps p : ℚ) (face : String),
      |omPlus - omMinus| < 1e-15 →
      gamma_pointwise omMinus eps p face = none →
      transport_update_U Un omMinus omPlus alpha eps p face = none) := by
  refine ⟨?_, ?_, ?_, ?_⟩
  · intro eps p
    unfold gamma_pointwise
    rw [if_neg (by decide), if_pos (by norm_num)]
  · intro omega eps p
    unfold gamma_pointwise
    rw [if_pos rfl]
    constructor
    · intro h
      by_contra hc
      rw [if_neg hc] at h
      exact Option.some_ne_none _ h
    · intro h
      rw [if_pos h]
  · intro omMinus omPlus eps p face h hp
    unfold gamma_secant
    rw [if_pos h, hp]
    rfl
  · intro Un omMinus omPlus alpha eps p face h hp
    unfold transport_update_U gamma_secant
    rw [if_pos h, hp]
    rfl

/-- Witness for C10's hypothesis branches at the concrete pole
`om_minus = om_plus = 1` on the normal face. -/
theorem C10_pointwise_poles_raise_witness :
    gamma_pointwise 1 (1e-8) 3 "normal" = none ∧
    gamma_secant 1 1 (1e-8) 3 "normal" = none ∧
    transport_update_U 0 1 1 1 (1e-8) 3 "normal" = none := by
  have hpw : gamma_pointwise 1 (1e-8) 3 "normal" = none :=
    C10_pointwise_poles_raise.1 (1e-8) 3
  refine ⟨hpw, ?_, ?_⟩
  · exact C10_pointwise_poles_raise.2.2.1 1 1 (1e-8) 3 "normal" (by norm_num) hpw
  · exact C10_pointwise_poles_raise.2.2.2 0 1 1 1 (1e-8) 3 "normal" (by norm_num) hpw

/-! ## Validation layer (`umcp.validation` / `collapse_validate.py`) -/

/-- Embedding of Python `str.strip()`: drop leading and trailing
whitespace characters. -/
def pyStrip (s : String) : String :=
  String.mk (((s.data.dropWhile Char.isWhitespace).reverse.dropWhile Char.isWhitespace).reverse)

/-- Flag parser `_to_bool_flag(s)`: a guard flag string is truthy iff its stripped value
is one of `1`, `true`, `True`, `TRUE`.
Source: `return str(s).strip() in {"1", "true", "True", "TRUE"}`. -/
def toBoolFlag (s : String) : Bool :=
  decide (pyStrip s ∈ (["1", "true", "True", "TRUE"] : List String))

/-- Face policy `choose_face(omega, guard_on, eps, pivot)`: the `exact` face is chosen
when the guard is engaged OR `omega ≥ pivot`; otherwise `normal`.  `eps` is
accepted but unused, as in the source. -/
def choose_face (omega : ℚ) (guardOn : Bool := false) (eps : ℚ := 1e-8)
    (pivot : ℚ := 0.99) : String :=
  if guardOn = true ∨ pivot ≤ omega then "exact" else "normal"

/-- An audit row as consumed by the validator: required numeric fields
`omega`, `C`, `tau_R`; `kappa` and `IC` optional (`none` = field absent or
empty); optional `guard_on` string field. -/
structure AuditRow where
  omega : ℚ
  C : ℚ
  tau_R : ℚ
  kappa : Option ℚ := none
  IC : Option ℚ := none
  guard_on : Option String := none

/-- Extraction of `kappa` from a row: prefer the `kappa` field; otherwise
derive `ln(clip(IC, 1e-300, 1))` from `IC`; raise (`none`) if both are
absent (Python `KeyError`). -/
noncomputable def rowKappa (r : AuditRow) : Option ℝ :=
  match r.kappa with
  | some k => some ((k : ℚ) : ℝ)
  | none =>
    match r.IC with
    | some ic => some (Real.log (((min (max ic 1e-300) 1 : ℚ) : ℝ)))
    | none => none

/-- Payload `U = C / (1 + tau_R)` of a row; Python raises `ZeroDivisionError`
when `1 + tau_R = 0`. -/
def rowU (r : AuditRow) : Option ℚ :=
  if 1 + r.tau_R = 0 then none else some (r.C / (1 + r.tau_R))

/-- Guard flag of a row: `row.get("guard_on", "0")` passed through
`_to_bool_flag`. -/
def rowGuard (r : AuditRow) : Bool := toBoolFlag (r.guard_on.getD "0")

/-- Face chosen for a row inside `validate_step`. -/
def rowFace (r : AuditRow) (eps pivot : ℚ) : String :=
  choose_face r.omega (rowGuard r) eps pivot

/-- The transport-prediction block of `validate_step`: if the faces differ,
attempt a split at `omega = pivot`, falling back to a single-face update on
`face_n` when the pivot is outside `[min omega_n omega_np1, max ...]`;
otherwise a single-face update. -/
noncomputable def transport_predict (Un : ℝ) (omN omNp1 : ℚ) (faceN faceNp1 : String)
    (alpha eps p pivot : ℚ) : Option ℝ :=
  if faceN ≠ faceNp1 then
    if ¬ (min omN omNp1 ≤ pivot ∧ pivot ≤ max omN omNp1) then
      transport_update_U Un omN omNp1 alpha eps p faceN
    else
      (transport_update_U Un omN pivot alpha eps p faceN).bind fun Umid =>
        transport_update_U Umid pivot omNp1 alpha eps p faceNp1
  else
    transport_update_U Un omN omNp1 alpha eps p faceN

/-- The per-transition validation record (output schema of
`validate_step`, with the `idx` added by the sequence driver). -/
structure ValidationRecord where
  idx : ℕ
  omega_n : ℚ
  omega_np1 : ℚ
  face_n : String
  face_np1 : String
  U_n : ℚ
  U_np1 : ℚ
  U_pred : ℝ
  rT : ℝ
  rW : ℝ
  okT : Bool
  okW : Bool

/-- Validator parameters with the published defaults. -/
structure VParams where
  alpha : ℚ := 1
  eps : ℚ := 1e-8
  p : ℚ := 3
  tolT : ℚ := 1e-9
  tolW : ℚ := 1e-12
  pivot : ℚ := 0.99

/-- Step validator `validate_step(row_n, row_np1, ...)`: field extraction, face selection,
transport prediction, residuals and pass flags for one step; `none` when
the Python code would raise. -/
noncomputable def validate_step (rowN rowNp1 : AuditRow) (pr : VParams) :
    Option ValidationRecord := do
  let kN ← rowKappa rowN
  let UN ← rowU rowN
  let kNp1 ← rowKappa rowNp1
  let UNp1 ← rowU rowNp1
  let faceN := rowFace rowN pr.eps pr.pivot
  let faceNp1 := rowFace rowNp1 pr.eps pr.pivot
  let Upred ← transport_predict (UN : ℝ) rowN.omega rowNp1.omega faceN faceNp1
      pr.alpha pr.eps pr.p pr.pivot
  let rT := ((UNp1 : ℚ) : ℝ) - Upred
  let rW := kNp1 - kN
  some { idx := 0, omega_n := rowN.omega, omega_np1 := rowNp1.omega,
         face_n := faceN, face_np1 := faceNp1, U_n := UN, U_np1 := UNp1,
         U_pred := Upred, rT := rT, rW := rW,
         okT := decide (|rT| ≤ ((pr.tolT : ℚ) : ℝ)),
         okW := decide (|rW| ≤ ((pr.tolW : ℚ) : ℝ)) }

/-- Errors of the sequence validator: fewer than two rows (Python
`ValueError("Need at least two rows")`), or a step raising. -/
inductive SeqError where
  | size : SeqError
  | step : SeqError
deriving DecidableEq

/-- Loop of `validate_sequence`: validate each adjacent pair in order,
tagging the record for pair `(i, i+1)` with `idx = i`. -/
noncomputable def validate_seq_aux (pr : VParams) :
    List AuditRow → ℕ → Except SeqError (List ValidationRecord)
  | r1 :: r2 :: rest, i =>
    match validate_step r1 r2 pr with
    | none => .error .step
    | some res =>
      match validate_seq_aux pr (r2 :: rest) (i + 1) with
      | .error e => .error e
      | .ok tail => .ok ({ res with idx := i } :: tail)
  | _, _ => .ok []

/-- Summary block of `validate_sequence`. -/
structure SeqSummary where
  total_steps : ℕ
  transport_pass : ℕ
  weld_pass : ℕ
  transport_pass_rate : ℚ
  weld_pass_rate : ℚ

/-- Sequence validator `validate_sequence(data, ...)`: fails with a size error for fewer than
two rows, otherwise validates every adjacent pair and aggregates the pass
counts. -/
noncomputable def validate_sequence (data : List AuditRow) (pr : VParams) :
    Except SeqError (List ValidationRecord × SeqSummary) :=
  if data.length < 2 then .error .size
  else
    match validate_seq_aux pr data 0 with
    | .error e => .error e
    | .ok results =>
      let total := data.length - 1
      let passesT := results.countP (fun r => r.okT)
      let passesW := results.countP (fun r => r.okW)
      .ok (results,
        { total_steps := total, transport_pass := passesT, weld_pass := passesW,
          transport_pass_rate := if total = 0 then 0 else (passesT : ℚ) / total,
          weld_pass_rate := if total = 0 then 0 else (passesW : ℚ) / total })

/-! ## Claim C9 — face selection policy and guard parsing -/

/-- C9 (confirmed).  `choose_face` returns `"exact"` iff the guard is on
or `omega ≥ pivot`, and `"normal"` otherwise; a parsed guard flag is true
exactly when the stripped string is one of `"1"`, `"true"`, `"True"`,
`"TRUE"` (a missing `guard_on` field counts as false); and two rows with
`omega = 0.5` and no `guard_on` field both select the normal face. -/
theorem C9_choose_face_policy :
    (∀ (omega : ℚ) (g : Bool) (eps pivot : ℚ),
      (choose_face omega g eps pivot = "exact" ↔ (g = true ∨ pivot ≤ omega)) ∧
      (choose_face omega g eps pivot = "normal" ↔ ¬(g = true ∨ pivot ≤ omega))) ∧
    (∀ s : String, toBoolFlag s = true ↔ pyStrip s ∈ (["1", "true", "True", "TRUE"] : List String)) ∧
    (∀ r1 r2 : AuditRow, r1.omega = 0.5 → r1.guard_on = none →
      r2.omega = 0.5 → r2.guard_on = none →
      rowFace r1 (1e-8) (0.99) = "normal" ∧ rowFace r2 (1e-8) (0.99) = "normal") := by
  refine ⟨?_, ?_, ?_⟩
  · intro omega g eps pivot
    unfold choose_face
    constructor <;> (split_ifs with h <;> simp [h])
  · intro s
    simp [toBoolFlag]
  · intro r1 r2 h1 g1 h2 g2
    have hflag : toBoolFlag "0" = false := rfl
    constructor <;> · simp only [rowFace, rowGuard, h1, g1, h2, g2, Option.getD, hflag]
                      unfold choose_face
                      rw [if_neg (by norm_num)]

/-- Witness for C9's concrete two-row scenario (scenario B of the spec):
rows with `omega = 0.5`, no guard field. -/
theorem C9_choose_face_policy_witness :
    rowFace { omega := 0.5, C := 0.2, tau_R := 1, kappa := some (-0.1) } (1e-8) (0.99) = "normal" ∧
    rowFace { omega := 0.5, C := 0.2, tau_R := 1, kappa := some (-0.1) } (1e-8) (0.99) = "normal" :=
  C9_choose_face_policy.2.2
    { omega := 0.5, C := 0.2, tau_R := 1, kappa := some (-0.1) }
    { omega := 0.5, C := 0.2, tau_R := 1, kappa := some (-0.1) }
    rfl rfl rfl rfl

/-! ## Claim C4 — transport prediction case split -/

/-- Modelled from the spec (§4.4 of `spec.md`): the claim's description of
the transport prediction.  If the chosen faces agree, a single-face secant
update on `face_n`; if they differ and the pivot lies within
`[min omega_n omega_np1, max omega_n omega_np1]`, two chained single-face
updates split at the pivot (`omega_n → pivot` on `face_n`, then
`pivot → omega_np1` on `face_np1`); if they differ and the pivot lies
outside that interval, a single-face update on the departure face `face_n`
over the entire step.  Reference definition for the refinement claim C4,
to be compared with `transport_predict`. -/
noncomputable def transport_predict_spec (Un : ℝ) (omN omNp1 : ℚ) (faceN faceNp1 : String)
    (alpha eps p pivot : ℚ) : Option ℝ :=
  if faceN = faceNp1 then
    transport_update_U Un omN omNp1 alpha eps p faceN
  else if min omN omNp1 ≤ pivot ∧ pivot ≤ max omN omNp1 then
    (transport_update_U Un omN pivot alpha eps p faceN).bind fun Umid =>
      transport_update_U Umid pivot omNp1 alpha eps p faceNp1
  else
    transport_update_U Un omN omNp1 alpha eps p faceN

/-- C4 (confirmed).  The transport prediction of `validate_step` agrees
with the claim's three-case description (`transport_predict_spec`) for
every input: equal faces give the single-face secant update; differing
faces split at the pivot when it lies in the step interval, and otherwise
fall back to a single-face update on the departure face. -/
theorem C4_transport_prediction_cases (Un : ℝ) (omN omNp1 : ℚ) (faceN faceNp1 : String)
    (alpha eps p pivot : ℚ) :
    transport_predict Un omN omNp1 faceN faceNp1 alpha eps p pivot =
      transport_predict_spec Un omN omNp1 faceN faceNp1 alpha eps p pivot := by
  unfold transport_predict transport_predict_spec
  by_cases hf : faceN = faceNp1
  · rw [if_neg (not_not_intro hf), if_pos hf]
  · rw [if_pos hf, if_neg hf]
    by_cases hr : min omN omNp1 ≤ pivot ∧ pivot ≤ max omN omNp1
    · rw [if_neg (not_not_intro hr), if_pos hr]
    · rw [if_pos hr, if_neg hr]

/-! ## Claim C7 — sequence validator contract -/

/-- The sequence validator's output contract: a size error is returned only
for fewer than two rows; a step error only for at least two rows (some
adjacent pair raised); a successful result implies at least two rows,
exactly `n - 1` records whose `idx` run `0 .. n-2` in order, and summary
counts matching the per-record pass flags. -/
def seqOutputContract (data : List AuditRow) :
    Except SeqError (List ValidationRecord × SeqSummary) → Prop
  | .error .size => data.length < 2
  | .error .step => 2 ≤ data.length
  | .ok (results, summary) =>
      2 ≤ data.length ∧
      results.length = data.length - 1 ∧
      results.map (fun r => r.idx) = List.range (data.length - 1) ∧
      summary.total_steps = data.length - 1 ∧
      summary.transport_pass = results.countP (fun r => r.okT) ∧
      summary.weld_pass = results.countP (fun r => r.okW)

theorem validate_seq_aux_ne_size (pr : VParams) :
    ∀ (rows : List AuditRow) (i : ℕ),
      validate_seq_aux pr rows i ≠ Except.error SeqError.size := by
  intro rows
  induction rows with
  | nil => intro i; simp [validate_seq_aux]
  | cons r1 rest ih =>
    cases rest with
    | nil => intro i; simp [validate_seq_aux]
    | cons r2 rest2 =>
      intro i
      rw [validate_seq_aux]
      cases hs : validate_step r1 r2 pr with
      | none => simp
      | some res =>
        cases ht : validate_seq_aux pr (r2 :: rest2) (i + 1) with
        | error e =>
          have := ih (i + 1)
          rw [ht] at this
          simpa using fun h => this (by rw [h])
        | ok tail => simp

theorem validate_seq_aux_length (pr : VParams) :
    ∀ (rows : List AuditRow) (i : ℕ) (res : List ValidationRecord),
      validate_seq_aux pr rows i = Except.ok res → res.length = rows.length - 1 := by
  intro rows
  induction rows with
  | nil =>
    intro i res h
    simp [validate_seq_aux] at h
    subst h
    simp
  | cons r1 rest ih =>
    cases rest with
    | nil =>
      intro i res h
      simp [validate_seq_aux] at h
      subst h
      simp
    | cons r2 rest2 =>
      intro i res h
      rw [validate_seq_aux] at h
      cases hs : validate_step r1 r2 pr with
      | none => rw [hs] at h; simp at h
      | some stepRes =>
        rw [hs] at h
        cases ht : validate_seq_aux pr (r2 :: rest2) (i + 1) with
        | error e => rw [ht] at h; simp at h
        | ok tail =>
          rw [ht] at h
          simp at h
          have htail := ih (i + 1) tail ht
          simp [← h, List.length_cons, htail]

theorem validate_seq_aux_idx (pr : VParams) :
    ∀ (rows : List AuditRow) (i : ℕ) (res : List ValidationRecord),
      validate_seq_aux pr rows i = Except.ok res →
      res.map (fun r => r.idx) = List.range' i res.length := by
  intro rows
  induction rows with
  | nil =>
    intro i res h
    simp [validate_seq_aux] at h
    subst h
    simp
  | cons r1 rest ih =>
    cases rest with
    | nil =>
      intro i res h
      simp [validate_seq_aux] at h
      subst h
      simp
    | cons r2 rest2 =>
      intro i res h
      rw [validate_seq_aux] at h
      cases hs : validate_step r1 r2 pr with
      | none => rw [hs] at h; simp at h
      | some stepRes =>
        rw [hs] at h
        cases ht : validate_seq_aux pr (r2 :: rest2) (i + 1) with
        | error e => rw [ht] at h; simp at h
        | ok tail =>
          rw [ht] at h
          simp at h
          have htail := ih (i + 1) tail ht
          simp [← h, htail, List.range'_succ]

/-- C7 (amended).  `validate_sequence` fails with a size error exactly
when given fewer than two rows; with `n ≥ 2` rows *on which every adjacent
pair validates without raising* it returns exactly `n - 1` records, with
`idx` running `0 .. n-2` in order, and a summary whose `total_steps` is
`n - 1` and whose `transport_pass` / `weld_pass` equal the number of
records with `okT` / `okW` set.  (The claim's unconditional record count is
refuted by `C7_counterexample`: a step can raise, yielding no records even
for `n ≥ 2`.) -/
theorem C7_amended_sequence_contract (data : List AuditRow) (pr : VParams) :
    seqOutputContract data (validate_sequence data pr) := by
  unfold validate_sequence
  by_cases hlt : data.length < 2
  · rw [if_pos hlt]
    exact hlt
  · rw [if_neg hlt]
    cases ha : validate_seq_aux pr data 0 with
    | error e =>
      cases e with
      | size => exact absurd ha (validate_seq_aux_ne_size pr data 0)
      | step =>
        show 2 ≤ data.length
        omega
    | ok results =>
      have hlen := validate_seq_aux_length pr data 0 results ha
      have hidx := validate_seq_aux_idx pr data 0 results ha
      refine ⟨by omega, hlen, ?_, rfl, rfl, rfl⟩
      rw [hidx, hlen, List.range_eq_range']

/-- An audit row sitting exactly at the transport pole: `omega = 1` with
the guard engaged forces the exact face, whose pointwise rate divides by
`1 - omega = 0`. -/
def poleRow : AuditRow :=
  { omega := 1, C := 0, tau_R := 1, kappa := some (-0.1), guard_on := some "1" }

/-- Counterexample to C7 as stated: two well-formed rows (`n = 2 ≥ 2`), yet
`validate_sequence` raises (step error) and produces no records, because
the transport update hits the `1 - omega = 0` pole of `gamma_pointwise`. -/
theorem C7_counterexample :
    ([poleRow, poleRow] : List AuditRow).length = 2 ∧
    validate_sequence [poleRow, poleRow] {} = Except.error SeqError.step := by
  refine ⟨rfl, ?_⟩
  have hface : rowFace poleRow (1e-8) (0.99) = "exact" := by
    have hg : rowGuard poleRow = true := rfl
    unfold rowFace choose_face
    rw [hg, if_pos (Or.inl rfl)]
  have hgp : gamma_pointwise 1 (1e-8) 3 "exact" = none := by
    unfold gamma_pointwise
    rw [if_pos rfl, if_pos (Or.inl (by norm_num))]
  have hstep : validate_step poleRow poleRow {} = none := by
    unfold validate_step
    have hk : rowKappa poleRow = some (((-0.1 : ℚ) : ℝ)) := rfl
    have hU : rowU poleRow = some 0 := by
      unfold rowU poleRow
      rw [if_neg (by norm_num)]
      norm_num
    rw [hk, hU]
    simp only [Option.bind_eq_bind, Option.some_bind, hface]
    have hpred : transport_predict ((0 : ℚ) : ℝ) poleRow.omega poleRow.omega
        "exact" "exact" (1 : ℚ) (1e-8) 3 (0.99) = none := by
      unfold transport_predict
      rw [if_neg (not_not_intro rfl)]
      unfold transport_update_U gamma_secant
      rw [if_pos (by norm_num)]
      have : poleRow.omega = 1 := rfl
      rw [this, hgp]
      rfl
    rw [hpred]
    rfl
  unfold validate_sequence
  rw [if_neg (by norm_num)]
  rw [validate_seq_aux, hstep]

/-! ## Invariant computation pipeline (`umcp.core`) -/

/-- Drift `compute_omega(y, policy="pre_clip")`: drift sequence, first entry `0`,
then `|y[i] - y[i-1]|`.  (The pipeline always uses the pre-clip policy
default.)  For an empty input the source still returns `[0.0]`. -/
def compute_omega (y : List ℚ) : List ℚ :=
  0 :: List.zipWith (fun prev curr => |curr - prev|) y y.tail

/-- Fidelity `compute_fidelity(omega)`: `F = 1 - omega`, elementwise. -/
def compute_fidelity (omega : List ℚ) : List ℚ :=
  omega.map (fun w => 1 - w)

/-- The entropy values `-ln(1 - w + eps)` (defined whenever no entry makes
the log argument non-positive). -/
noncomputable def entropy_values (omega : List ℚ) (eps : ℚ) : List ℝ :=
  omega.map (fun w => -Real.log (((1 - w + eps : ℚ) : ℝ)))

/-- Entropy `compute_entropy(omega, eps)`: `S = -ln(1 - omega + eps)` elementwise.
The source does NOT clamp this logarithm (`-math.log(1.0 - w + eps)`), so
Python raises `ValueError` at the first entry with `1 - w + eps ≤ 0`;
the run then produces nothing, which is the `none` case here. -/
noncomputable def compute_entropy (omega : List ℚ) (eps : ℚ) : Option (List ℝ) :=
  if omega.all (fun w => decide (0 < 1 - w + eps)) then some (entropy_values omega eps)
  else none

/-- Curvature `compute_curvature(xhat, K)`: `C[i] = 0` for `i < K`, else the mean of
`(xhat[i] - xhat[i-k])^2` over `k = 1..K`. -/
def compute_curvature (xhat : List ℚ) (K : ℕ) : List ℚ :=
  (List.range xhat.length).map (fun i =>
    if i < K then 0
    else (((List.range K).map (fun k => (xhat.getD i 0 - xhat.getD (i - (k + 1)) 0) ^ 2)).sum) / K)

/-- Python list indexing `xs[i]` including negative-index wraparound
(`xs[-k]` is `xs[n-k]`).  The out-of-range case, where Python would raise
`IndexError`, returns the default `0`; it is unreachable from the call
sites below (the return-time search only ever produces indices in
`[-1, t]` with `t < n`). -/
def pyGet (xs : List ℚ) (i : ℤ) : ℚ :=
  if 0 ≤ i then xs.getD i.toNat 0 else xs.getD (xs.length - (-i).toNat) 0

/-- The debounced linear search inside `compute_tau_ret`: starting at
candidate `dt` with `seen` consecutive qualifying candidates so far, scan
`fuel` further candidates; return the candidate at which `seen` reaches the
debounce length `L`, or `none` when the fuel runs out. -/
def debounceFirst (Q : ℕ → Bool) (L : ℕ) : ℕ → ℕ → ℕ → Option ℕ
  | _, _, 0 => none
  | dt, seen, fuel + 1 =>
    if Q dt then
      if L ≤ seen + 1 then some dt
      else debounceFirst Q L (dt + 1) (seen + 1) fuel
    else debounceFirst Q L (dt + 1) 0 fuel

/-- The qualifying test of the return-time search at time `t`:
`|xhat[t] - xhat[t - dt]| < eps_ret`, with Python indexing (so `dt = t + 1`
compares against the LAST element of the whole series via `xhat[-1]`). -/
def tauQ (epsRet : ℚ) (xs : List ℚ) (t : ℕ) (dt : ℕ) : Bool :=
  decide (|xs.getD t 0 - pyGet xs ((t : ℤ) - (dt : ℤ))| < epsRet)

/-- Return time `compute_tau_ret(eps_ret, xhat_series, t, max_h=600, debounce_L=2)`
from `umcp.core`: returns `1` at `t = 0`; otherwise scans
`dt = 1 .. min(t+1, max_h)` (note: `t+1`, and the source passes the FULL
`xhat` list, so `dt = t+1` reads `xhat[-1]`), returning the `dt` at which
the debounce count reaches `debounce_L`, else `max_h`. -/
def compute_tau_ret (epsRet : ℚ) (xs : List ℚ) (t : ℕ)
    (maxH : ℕ := 600) (debounceL : ℕ := 2) : ℕ :=
  if t = 0 then 1
  else (debounceFirst (tauQ epsRet xs t) debounceL 1 0 (min (t + 1) maxH)).getD maxH

/-- One iteration of the adaptive `tau_R` loop of `compute_invariants`:
at `i = 0` reset the EMA and emit `1`; otherwise update the exponential
moving average `res_sigma` (λ = 0.2) of the absolute step residual, derive
`eps_ret = clip(2.5·res_sigma, 5e-4, 0.07)`, and call `compute_tau_ret` on
the full `xhat` list.  The state is `(res_sigma, emitted tau_R list)`. -/
def pipeline_tau_R_step (xhat : List ℚ) (st : ℚ × List ℕ) (i : ℕ) : ℚ × List ℕ :=
  if i = 0 then (0, st.2 ++ [1])
  else
    let rres := xhat.getD i 0 - xhat.getD (i - 1) 0
    let resSigma' := 0.2 * |rres| + (1 - 0.2) * st.1
    let epsRet := max (5e-4) (min (2.5 * resSigma') 0.07)
    (resSigma', st.2 ++ [compute_tau_ret epsRet xhat i])

/-- The `tau_R` list of the pipeline, one entry per time index. -/
def pipeline_tau_R (xhat : List ℚ) : List ℕ :=
  ((List.range xhat.length).foldl (pipeline_tau_R_step xhat) (0, [])).2

/-- Integrity `compute_integrity_coefficient(F, S, omega, C, tau_R, alpha)`:
`IC = F · exp(-S) · (1-omega) · exp(-alpha·C/(1+tau_R))`. -/
noncomputable def compute_integrity_coefficient (F S omega C tauR alpha : ℝ) : ℝ :=
  F * Real.exp (-S) * (1 - omega) * Real.exp (-alpha * C / (1 + tauR))

/-- Log-integrity `compute_kappa(IC) = ln(max(IC, 1e-300))`: the log argument IS clamped
here, so `compute_kappa` is total. -/
noncomputable def compute_kappa (IC : ℝ) : ℝ :=
  Real.log (max IC 1e-300)

/-- Transport payload `compute_U(C, tau_R) = C / (1 + tau_R)`. -/
def compute_U (C : ℚ) (tauR : ℕ) : ℚ := C / (1 + (tauR : ℚ))

/-- Regime classifier `classify_regime(omega, F, S, C, IC)` from `umcp.core`, generic over
the ordered field carrying the invariant values (the float literals
`0.038, 0.9, 0.15, 0.14, 0.30` are written as exact rationals). -/
def classify_regime {α : Type} [LinearOrderedField α] (omega F S C IC : α) : String :=
  if omega < 38/1000 ∧ 9/10 < F ∧ S < 15/100 ∧ C < 14/100 then "Stable"
  else if 30/100 ≤ omega then
    if IC < 30/100 then "Critical" else "Collapse"
  else if 38/1000 ≤ omega ∧ omega < 30/100 then "Watch"
  else "Stable"

/-- Which branch of `classify_regime` fires (same gate conditions, in the
same order, but returning a tag instead of the label so that reaching the
final fallback is observable). -/
inductive RegimeBranch where
  | stableGate : RegimeBranch
  | wall : RegimeBranch
  | watch : RegimeBranch
  | fallback : RegimeBranch
deriving DecidableEq

/-- Branch tag of `classify_regime` on the given inputs. -/
def classify_regime_branch {α : Type} [LinearOrderedField α] (omega F S C IC : α) : RegimeBranch :=
  if omega < 38/1000 ∧ 9/10 < F ∧ S < 15/100 ∧ C < 14/100 then .stableGate
  else if 30/100 ≤ omega then .wall
  else if 38/1000 ≤ omega ∧ omega < 30/100 then .watch
  else .fallback

/-- The label each branch returns (`wall` still inspects `IC` for the
Critical overlay). -/
def regime_of_branch {α : Type} [LinearOrderedField α] (IC : α) : RegimeBranch → String
  | .stableGate => "Stable"
  | .wall => if IC < 30/100 then "Critical" else "Collapse"
  | .watch => "Watch"
  | .fallback => "Stable"

/-- One full invariant record per time index (output schema of
`compute_invariants`): the purely arithmetic fields are exact rationals;
entropy, integrity and log-integrity are reals. -/
structure InvariantRecord where
  t : ℕ
  x_raw : ℚ
  y : ℚ
  xhat : ℚ
  omega : ℚ
  F : ℚ
  S : ℝ
  C : ℚ
  tau_R : ℕ
  IC : ℝ
  kappa : ℝ
  U : ℚ
  regime : String

noncomputable instance : Inhabited InvariantRecord :=
  ⟨{ t := 0, x_raw := 0, y := 0, xhat := 0, omega := 0, F := 0, S := 0,
     C := 0, tau_R := 0, IC := 0, kappa := 0, U := 0, regime := "" }⟩

/-- The record the final loop of `compute_invariants` builds at index `i`,
reading each previously computed sequence at `i` (list reads use `getD`
with default `0`; every call site has `i` in range). -/
noncomputable def invariant_record_at (xRaw : List ℚ) (a b eps : ℚ) (K : ℕ) (alpha : ℚ)
    (i : ℕ) : InvariantRecord :=
  let y := xRaw.map (fun x => (x - a) / b)
  let xhat := y.map clip01
  let omega := compute_omega y
  let w := omega.getD i 0
  let Fi := (compute_fidelity omega).getD i 0
  let Si := (entropy_values omega eps).getD i 0
  let Ci := (compute_curvature xhat K).getD i 0
  let taui := (pipeline_tau_R xhat).getD i 0
  let ICi := compute_integrity_coefficient (Fi : ℝ) Si (w : ℝ) (Ci : ℝ) (taui : ℝ) (alpha : ℝ)
  { t := i, x_raw := xRaw.getD i 0, y := y.getD i 0, xhat := xhat.getD i 0,
    omega := w, F := Fi, S := Si, C := Ci, tau_R := taui,
    IC := ICi, kappa := compute_kappa ICi, U := compute_U Ci taui,
    regime := classify_regime (w : ℝ) (Fi : ℝ) Si (Ci : ℝ) ICi }

/-- Pipeline `compute_invariants(x_raw, a, b, eps=1e-8, K=3, alpha=1.0)`: raises
(`none`) when `b ≤ 0` (`ValueError`) or when `compute_entropy` raises;
otherwise one `InvariantRecord` per input index. -/
noncomputable def compute_invariants (xRaw : List ℚ) (a b : ℚ) (eps : ℚ := 1e-8)
    (K : ℕ := 3) (alpha : ℚ := 1) : Option (List InvariantRecord) :=
  if b ≤ 0 then none
  else if (compute_omega (xRaw.map (fun x => (x - a) / b))).all
      (fun w => decide (0 < 1 - w + eps)) then
    some ((List.range xRaw.length).map (invariant_record_at xRaw a b eps K alpha))
  else none

/-! ## Claim C3 — logarithm clamping in the pipeline -/

/-- Counterexample to C3 as stated: `compute_entropy` raises at
`omega = 2 ≥ 1 + eps` (its logarithm argument `1 - 2 + 1e-8` is negative
and the source has no clamp there), so not every logarithm in the pipeline
is floor-clamped, and `compute_entropy` does not "never raise". -/
theorem C3_counterexample : compute_entropy [2] (1e-8) = none := by
  unfold compute_entropy
  rw [if_neg (by norm_num)]

/-- C3 (amended).  `compute_kappa` (and likewise every `phi` logarithm)
evaluates its log with the argument floor-clamped to `1e-300`, hence never
raises for any real input; but `compute_entropy` does NOT clamp: it raises
exactly when some drift entry has `1 - omega + eps ≤ 0` (i.e.
`omega ≥ 1 + eps`, past the wall). -/
theorem C3_amended_log_clamping :
    (∀ IC : ℝ, pyLog (max IC 1e-300) = some (compute_kappa IC)) ∧
    (∀ x : ℝ, pyLog (max x 1e-300) = some (Real.log (max x 1e-300))) ∧
    (∀ (omega : List ℚ) (eps : ℚ),
      compute_entropy omega eps = none ↔ ∃ w ∈ omega, 1 - w + eps ≤ 0) := by
  have hclamp : ∀ x : ℝ, pyLog (max x 1e-300) = some (Real.log (max x 1e-300)) := by
    intro x
    unfold pyLog
    rw [if_pos (lt_max_of_lt_right (by norm_num))]
  refine ⟨fun IC => hclamp IC, hclamp, ?_⟩
  intro omega eps
  unfold compute_entropy
  by_cases h : omega.all (fun w => decide (0 < 1 - w + eps)) = true
  · rw [if_pos h]
    simp only [List.all_eq_true, decide_eq_true_eq] at h
    constructor
    · intro hc
      exact absurd hc (by simp)
    · rintro ⟨w, hw, hle⟩
      exact absurd (h w hw) (not_lt.mpr hle)
  · rw [if_neg h]
    simp only [List.all_eq_true, decide_eq_true_eq] at h
    push_neg at h
    obtain ⟨w, hw, hnlt⟩ := h
    exact iff_of_true rfl ⟨w, hw, hnlt⟩

/-! ## Claim C6 — regime classifier fallback reachability -/

/-- Counterexample to C6 as stated: with `omega = 0.01 ≥ 0` (finite,
non-NaN), `F = 0.5`, `S = C = 0`, `IC = 1`, the Stable gate fails on
`F > 0.9`, the other two gates need `omega ≥ 0.038`, and the final
fallback branch is reached — not only for negative or NaN `omega`. -/
theorem C6_counterexample :
    classify_regime_branch (0.01 : ℚ) 0.5 0 0 1 = RegimeBranch.fallback ∧
    (0 : ℚ) ≤ 0.01 ∧
    classify_regime (0.01 : ℚ) 0.5 0 0 1 = "Stable" := by
  refine ⟨?_, by norm_num, ?_⟩
  · unfold classify_regime_branch
    rw [if_neg (by norm_num), if_neg (by norm_num), if_neg (by norm_num)]
  · unfold classify_regime
    rw [if_neg (by norm_num), if_neg (by norm_num), if_neg (by norm_num)]

/-- C6 (amended).  `classify_regime` always returns the label of the
branch computed by `classify_regime_branch`, and the final fallback
`"Stable"` branch is reached exactly when `omega < 0.038` while the
Stable gate's `F`/`S`/`C` conjuncts fail — in particular it IS reachable
for nonnegative (finite) `omega`; for `omega ≥ 0.038` one of the explicit
gate branches always fires.  (NaN inputs are outside this embedding.) -/
theorem C6_amended_fallback_reachability (omega F S C IC : ℚ) :
    classify_regime omega F S C IC =
      regime_of_branch IC (classify_regime_branch omega F S C IC) ∧
    (classify_regime_branch omega F S C IC = RegimeBranch.fallback ↔
      omega < 38/1000 ∧ ¬(9/10 < F ∧ S < 15/100 ∧ C < 14/100)) := by
  constructor
  · unfold classify_regime classify_regime_branch regime_of_branch
    split_ifs <;> rfl
  · unfold classify_regime_branch
    split_ifs with h1 h2 h3
    · exact iff_of_false (by simp) (fun hr => hr.2 h1.2)
    · exact iff_of_false (by simp) (fun hr => absurd hr.1 (by linarith))
    · exact iff_of_false (by simp) (fun hr => absurd hr.1 (by linarith [h3.1]))
    · have hlt30 : omega < 30/100 := not_le.mp h2
      have hlt : omega < 38/1000 := by
        by_contra hge
        exact h3 ⟨not_lt.mp hge, hlt30⟩
      exact iff_of_true rfl ⟨hlt, fun htriple => h1 ⟨hlt, htriple⟩⟩

/-! ## Claim C2 — the return-time search -/

/-- Reformulation of the debounced scan for debounce length 2: walk the
candidates carrying a flag `prev` = "the previous candidate qualified";
return the first candidate qualifying while `prev` is set. -/
def firstPairFrom (Q : ℕ → Bool) : Bool → ℕ → ℕ → Option ℕ
  | _, _, 0 => none
  | prev, d, fuel + 1 =>
    if Q d then
      if prev then some d else firstPairFrom Q true (d + 1) fuel
    else firstPairFrom Q false (d + 1) fuel

theorem debounceFirst_eq_firstPairFrom (Q : ℕ → Bool) :
    ∀ (fuel d seen : ℕ), seen ≤ 1 →
      debounceFirst Q 2 d seen fuel = firstPairFrom Q (decide (1 ≤ seen)) d fuel := by
  intro fuel
  induction fuel with
  | zero => intro d seen hs; rfl
  | succ n ih =>
    intro d seen hs
    rw [debounceFirst, firstPairFrom]
    by_cases hq : Q d = true
    · rw [if_pos hq, if_pos hq]
      by_cases h1 : 1 ≤ seen
      · rw [if_pos (by omega), if_pos (by simpa using h1)]
      · rw [if_neg (by omega), if_neg (by simpa using h1)]
        have hz : seen = 0 := by omega
        subst hz
        simpa using ih (d + 1) 1 (by omega)
    · rw [if_neg hq, if_neg hq]
      simpa using ih (d + 1) 0 (by omega)

theorem firstPairFrom_eq_find? (Q : ℕ → Bool) :
    ∀ (fuel d : ℕ) (prev : Bool), 1 ≤ d →
      prev = (decide (2 ≤ d) && Q (d - 1)) →
      firstPairFrom Q prev d fuel =
        (List.range' d fuel).find? (fun r => Q r && (decide (2 ≤ r) && Q (r - 1))) := by
  intro fuel
  induction fuel with
  | zero => intro d prev hd hp; rfl
  | succ n ih =>
    intro d prev hd hp
    rw [firstPairFrom, List.range'_succ]
    by_cases hq : Q d = true
    · rw [if_pos hq]
      by_cases hpd : (Q d && (decide (2 ≤ d) && Q (d - 1))) = true
      · have hprev : prev = true := by
          rw [hp]
          simpa [hq] using hpd
        rw [hprev, if_pos rfl,
          List.find?_cons_of_pos (List.range' (d + 1) n)
            (show (fun r => Q r && (decide (2 ≤ r) && Q (r - 1))) d = true from hpd)]
      · have hprev : prev = false := by
          rw [hp]
          simp only [hq, Bool.true_and] at hpd
          simpa using hpd
        rw [hprev, if_neg (by simp),
          List.find?_cons_of_neg (List.range' (d + 1) n)
            (show ¬(fun r => Q r && (decide (2 ≤ r) && Q (r - 1))) d = true from by
              simpa using hpd)]
        exact ih (d + 1) true (by omega) (by simp [hq, show 2 ≤ d + 1 by omega])
    · rw [if_neg hq,
        List.find?_cons_of_neg (List.range' (d + 1) n)
          (show ¬(fun r => Q r && (decide (2 ≤ r) && Q (r - 1))) d = true from by simp [hq])]
      exact ih (d + 1) false (by omega) (by simp [hq])

theorem find?_congr_mem {α : Type} :
    ∀ (l : List α) (p q : α → Bool), (∀ x ∈ l, p x = q x) → l.find? p = l.find? q := by
  intro l
  induction l with
  | nil => intro p q _; rfl
  | cons a l ih =>
    intro p q h
    have ha := h a (by simp)
    by_cases hp : p a = true
    · rw [List.find?_cons_of_pos _ hp, List.find?_cons_of_pos _ (ha ▸ hp)]
    · rw [List.find?_cons_of_neg _ hp, List.find?_cons_of_neg _ (by rw [← ha]; exact hp)]
      exact ih p q (fun x hx => h x (by simp [hx]))

/-- C2 (amended).  `tau_R[0] = 1`, and for `t ≥ 1` the return-time
search returns the first candidate `dt` in `[2, min(t+1, 600)]` such that
BOTH `dt` and `dt - 1` qualify (`|xhat[t] - xhat[t-dt]| < eps_ret` with
Python indexing, so the candidate `dt = t + 1` compares against the last
element of the whole series via `xhat[-1]`), and `600` when no such pair
exists.  This corrects the claim's horizon `min(t, 600)`: the source scans
`dt = 1 .. min(t+1, 600)` over the FULL `xhat` list. -/
theorem C2_amended_tau_ret (epsRet : ℚ) (xs : List ℚ) (t : ℕ) :
    compute_tau_ret epsRet xs 0 = 1 ∧
    (1 ≤ t → compute_tau_ret epsRet xs t =
      ((List.range' 2 (min (t + 1) 600 - 1)).find?
        (fun dt => tauQ epsRet xs t dt && tauQ epsRet xs t (dt - 1))).getD 600) := by
  constructor
  · rfl
  · intro ht
    unfold compute_tau_ret
    rw [if_neg (by omega)]
    rw [debounceFirst_eq_firstPairFrom (tauQ epsRet xs t) (min (t + 1) 600) 1 0 (by omega)]
    rw [show (decide (1 ≤ 0)) = false from rfl]
    rw [firstPairFrom_eq_find? (tauQ epsRet xs t) (min (t + 1) 600) 1 false le_rfl (by simp)]
    have hf : min (t + 1) 600 = (min (t + 1) 600 - 1) + 1 := by omega
    have hsplit : List.range' 1 (min (t + 1) 600) =
        1 :: List.range' 2 (min (t + 1) 600 - 1) := by
      conv_lhs => rw [hf]
      rw [List.range'_succ]
    rw [hsplit,
      List.find?_cons_of_neg (List.range' 2 (min (t + 1) 600 - 1))
        (show ¬(fun r => tauQ epsRet xs t r &&
            (decide (2 ≤ r) && tauQ epsRet xs t (r - 1))) 1 = true from by norm_num)]
    rw [find?_congr_mem (List.range' 2 (min (t + 1) 600 - 1))
      (fun r => tauQ epsRet xs t r && (decide (2 ≤ r) && tauQ epsRet xs t (r - 1)))
      (fun dt => tauQ epsRet xs t dt && tauQ epsRet xs t (dt - 1))
      (fun x hx => by
        have h2 : 2 ≤ x := (List.mem_range'_1.mp hx).1
        simp [h2])]

/-- Witness for C2's amended characterization at the concrete series
`xhat = [0, 0]`, `t = 1`, `eps_ret = 5e-4`: the candidates `dt = 1` and
`dt = 2` both qualify (the latter via `xhat[-1]`), so the search returns
`2` — beyond the claimed horizon `min(t, 600) = 1`. -/
theorem C2_amended_tau_ret_witness : compute_tau_ret (5e-4) [0, 0] 1 = 2 := by
  have h := (C2_amended_tau_ret (5e-4) [0, 0] 1).2 le_rfl
  rw [h]
  have h1 : tauQ (5e-4) [0, 0] 1 1 = true := by
    unfold tauQ pyGet
    norm_num
  have h2 : tauQ (5e-4) [0, 0] 1 2 = true := by
    unfold tauQ pyGet
    norm_num
  have : min (1 + 1) 600 - 1 = 1 := by norm_num
  rw [this]
  rw [show List.range' 2 1 = [2] from rfl]
  rw [List.find?_cons_of_pos ([] : List ℕ)
    (show (fun dt => tauQ (5e-4) [0, 0] 1 dt && tauQ (5e-4) [0, 0] 1 (dt - 1)) 2 = true from by
      simp [h1, h2])]
  rfl

/-- Modelled from the claim's words for C2 (spec-side reference): the
smallest positive `dt ≤ min(i, 600)` at which the debounce count reaches 2,
with plain (non-wrapping) indexing `xhat[i - dt]`; `600` when no such `dt`;
`1` at `i = 0`.  Differs from the source only in the horizon
(`min(i, 600)` instead of `min(i+1, 600)` with Python `xhat[-1]`
wraparound at `dt = i + 1`). -/
def spec_tau_ret (epsRet : ℚ) (xs : List ℚ) (t : ℕ) : ℕ :=
  if t = 0 then 1
  else (debounceFirst (fun dt => decide (|xs.getD t 0 - xs.getD (t - dt) 0| < epsRet))
    2 1 0 (min t 600)).getD 600

/-- One iteration of the claim's `tau_R` pipeline (same λ = 0.2 EMA and
`eps_ret = clip(2.5·res_sigma, 5e-4, 0.07)` as the source, which the claim
states correctly) but with the claim's `spec_tau_ret` search. -/
def spec_pipeline_tau_R_step (xhat : List ℚ) (st : ℚ × List ℕ) (i : ℕ) : ℚ × List ℕ :=
  if i = 0 then (0, st.2 ++ [1])
  else
    let rres := xhat.getD i 0 - xhat.getD (i - 1) 0
    let resSigma' := 0.2 * |rres| + (1 - 0.2) * st.1
    let epsRet := max (5e-4) (min (2.5 * resSigma') 0.07)
    (resSigma', st.2 ++ [spec_tau_ret epsRet xhat i])

/-- The claim's predicted `tau_R` list. -/
def spec_pipeline_tau_R (xhat : List ℚ) : List ℕ :=
  ((List.range xhat.length).foldl (spec_pipeline_tau_R_step xhat) (0, [])).2

/-- Counterexample to C2 as stated: on the raw series `[0, 0]` (with
`a = 0`, `b = 1`, so `xhat = [0, 0]`), `compute_invariants` sets
`tau_R = [1, 2]` — at `i = 1` the search accepts `dt = 2 > min(1, 600)`,
the second qualifying candidate being the Python-negative-index read
`xhat[-1]` — while the claim's description predicts `[1, 600]` (no pair of
consecutive qualifying candidates within `dt ≤ 1`). -/
theorem C2_counterexample :
    ((compute_invariants [0, 0] 0 1 (1e-8) 3 1).getD []).map (fun r => r.tau_R) = [1, 2] ∧
    spec_pipeline_tau_R [0, 0] = [1, 600] ∧ (2 : ℕ) ≠ 600 := by
  have hy : ([0, 0] : List ℚ).map (fun x => (x - 0) / 1) = [0, 0] := by norm_num
  have homega : compute_omega [0, 0] = [0, 0] := by
    unfold compute_omega
    norm_num
  have hxhat : ([0, 0] : List ℚ).map clip01 = [0, 0] := by
    unfold clip01
    norm_num
  have htau2 : ∀ e : ℚ, 0 < e → compute_tau_ret e [0, 0] 1 = 2 := by
    intro e he
    have h := (C2_amended_tau_ret e [0, 0] 1).2 le_rfl
    rw [h]
    have h1 : tauQ e [0, 0] 1 1 = true := by
      unfold tauQ pyGet
      simpa using he
    have h2 : tauQ e [0, 0] 1 2 = true := by
      unfold tauQ pyGet
      simpa using he
    rw [show min (1 + 1) 600 - 1 = 1 from by norm_num,
      show List.range' 2 1 = [2] from rfl,
      List.find?_cons_of_pos ([] : List ℕ)
        (show (fun dt => tauQ e [0, 0] 1 dt && tauQ e [0, 0] 1 (dt - 1)) 2 = true from by
          simp [h1, h2])]
    rfl
  have hspec2 : ∀ e : ℚ, 0 < e → spec_tau_ret e [0, 0] 1 = 600 := by
    intro e he
    unfold spec_tau_ret
    rw [if_neg one_ne_zero, show min 1 600 = 1 from rfl, debounceFirst]
    rw [if_pos (by simpa using he), if_neg (by omega)]
    rfl
  have htauR : pipeline_tau_R [0, 0] = [1, 2] := by
    have s1 : pipeline_tau_R_step [0, 0] (0, []) 0 = (0, [1]) := by
      unfold pipeline_tau_R_step
      norm_num
    have s2 : pipeline_tau_R_step [0, 0] (0, [1]) 1 = (0, [1, 2]) := by
      unfold pipeline_tau_R_step
      rw [if_neg one_ne_zero]
      simp only [List.getD_cons_zero, List.getD_cons_succ]
      rw [htau2 _ (lt_max_of_lt_left (by norm_num))]
      norm_num
    unfold pipeline_tau_R
    rw [show List.range ([0, 0] : List ℚ).length = [0, 1] from rfl]
    simp only [List.foldl_cons, List.foldl_nil, s1, s2]
  refine ⟨?_, ?_, by norm_num⟩
  · unfold compute_invariants
    rw [if_neg (by norm_num), hy, homega,
      if_pos (by simp only [List.all_cons, List.all_nil, Bool.and_eq_true,
        decide_eq_true_eq]; norm_num)]
    rw [show List.range ([0, 0] : List ℚ).length = [0, 1] from rfl]
    simp only [Option.getD_some, List.map_cons, List.map_nil]
    unfold invariant_record_at
    simp only [hy, hxhat, htauR]
    norm_num
  · have s1 : spec_pipeline_tau_R_step [0, 0] (0, []) 0 = (0, [1]) := by
      unfold spec_pipeline_tau_R_step
      norm_num
    have s2 : spec_pipeline_tau_R_step [0, 0] (0, [1]) 1 = (0, [1, 600]) := by
      unfold spec_pipeline_tau_R_step
      rw [if_neg one_ne_zero]
      simp only [List.getD_cons_zero, List.getD_cons_succ]
      rw [hspec2 _ (lt_max_of_lt_left (by norm_num))]
      norm_num
    unfold spec_pipeline_tau_R
    rw [show List.range ([0, 0] : List ℚ).length = [0, 1] from rfl]
    simp only [List.foldl_cons, List.foldl_nil, s1, s2]

/-! ## Claim C1 — range invariants of the records -/

theorem getD_of_forall_mem {α : Type} {P : α → Prop} (l : List α) (d : α) (i : ℕ)
    (hmem : ∀ x ∈ l, P x) (hd : P d) : P (l.getD i d) := by
  by_cases h : i < l.length
  · rw [List.getD_eq_getElem l d h]
    exact hmem _ (List.getElem_mem h)
  · rw [List.getD_eq_default l d (le_of_not_lt h)]
    exact hd

theorem getD_map_eq {α β : Type} (f : α → β) (l : List α) (i : ℕ) (h : i < l.length)
    (d : β) (d0 : α) : (l.map f).getD i d = f (l.getD i d0) := by
  rw [List.getD_eq_getElem (l.map f) d (by simpa using h), List.getD_eq_getElem l d0 h,
    List.getElem_map]

theorem zipWith_absdiff_nonneg :
    ∀ (l1 l2 : List ℚ), ∀ x ∈ List.zipWith (fun prev curr => |curr - prev|) l1 l2, 0 ≤ x
  | [], _ => by simp
  | _ :: _, [] => by simp
  | a :: l1, b :: l2 => by
    intro x hx
    rcases List.mem_cons.mp hx with h | h
    · rw [h]; positivity
    · exact zipWith_absdiff_nonneg l1 l2 x h

theorem compute_omega_mem_nonneg (y : List ℚ) : ∀ x ∈ compute_omega y, 0 ≤ x := by
  intro x hx
  unfold compute_omega at hx
  rcases List.mem_cons.mp hx with h | h
  · exact h ▸ le_rfl
  · exact zipWith_absdiff_nonneg y y.tail x h

theorem clip01_nonneg (v : ℚ) : 0 ≤ clip01 v := le_max_left 0 _

theorem clip01_le_one (v : ℚ) : clip01 v ≤ 1 := max_le (by norm_num) (min_le_left 1 v)

theorem compute_curvature_mem_nonneg (xhat : List ℚ) (K : ℕ) :
    ∀ x ∈ compute_curvature xhat K, 0 ≤ x := by
  intro x hx
  unfold compute_curvature at hx
  obtain ⟨i, -, rfl⟩ := List.mem_map.mp hx
  split_ifs
  · exact le_rfl
  · apply div_nonneg
    · apply List.sum_nonneg
      intro q hq
      obtain ⟨k, -, rfl⟩ := List.mem_map.mp hq
      positivity
    · positivity

/-- Analytic range of `IC` and `kappa` at the pipeline's defaults
(`alpha = 1`): with `S = -ln(1 - w + e)` and `F = 1 - w`, the integrity
coefficient equals `(1-w)^2 · (1-w+e) · exp(-C/(1+τ))`, hence lies in
`[0, 1+e]`; and `kappa = ln(max(IC, 1e-300)) ≤ ln(1+e)`. -/
theorem integrity_coefficient_bounds (w e C τ : ℝ) (hw0 : 0 ≤ w) (hwe : w < 1 + e)
    (he0 : 0 < e) (he1 : e ≤ 1) (hC : 0 ≤ C) (hτ : 0 ≤ τ) :
    0 ≤ compute_integrity_coefficient (1 - w) (-Real.log (1 - w + e)) w C τ 1 ∧
    compute_integrity_coefficient (1 - w) (-Real.log (1 - w + e)) w C τ 1 ≤ 1 + e ∧
    compute_kappa (compute_integrity_coefficient (1 - w) (-Real.log (1 - w + e)) w C τ 1) ≤
      Real.log (1 + e) := by
  have hEpos : (0 : ℝ) < 1 - w + e := by linarith
  have hexp : Real.exp (-(-Real.log (1 - w + e))) = 1 - w + e := by
    rw [neg_neg, Real.exp_log hEpos]
  have hA0 : (0 : ℝ) < Real.exp (-1 * C / (1 + τ)) := Real.exp_pos _
  have hA1 : Real.exp (-1 * C / (1 + τ)) ≤ 1 := by
    rw [Real.exp_le_one_iff]
    apply div_nonpos_of_nonpos_of_nonneg
    · linarith
    · linarith
  have hsq : (1 - w) ^ 2 ≤ 1 := by nlinarith
  have hlow : 0 ≤ compute_integrity_coefficient (1 - w) (-Real.log (1 - w + e)) w C τ 1 := by
    unfold compute_integrity_coefficient
    rw [hexp]
    nlinarith [mul_nonneg (sq_nonneg (1 - w)) (mul_pos hEpos hA0).le]
  have hupp : compute_integrity_coefficient (1 - w) (-Real.log (1 - w + e)) w C τ 1 ≤ 1 + e := by
    unfold compute_integrity_coefficient
    rw [hexp]
    have h1 : (1 - w + e) * Real.exp (-1 * C / (1 + τ)) ≤ (1 + e) * 1 :=
      mul_le_mul (by linarith) hA1 hA0.le (by linarith)
    have h2 : (1 - w) ^ 2 * ((1 - w + e) * Real.exp (-1 * C / (1 + τ))) ≤ 1 * ((1 + e) * 1) :=
      mul_le_mul hsq h1 (mul_nonneg hEpos.le hA0.le) zero_le_one
    nlinarith [h2]
  refine ⟨hlow, hupp, ?_⟩
  unfold compute_kappa
  apply Real.log_le_log (lt_max_of_lt_right (by norm_num))
  apply max_le hupp
  linarith

/-- C1 (amended).  For every raw input and frozen `(a, b)` on which
`compute_invariants` (at the defaults `eps = 1e-8`, `K = 3`,
`alpha = 1.0`, which require `b > 0`) succeeds, every record satisfies
`0 ≤ omega`, `0 ≤ xhat ≤ 1`, `0 ≤ IC ≤ 1 + eps`, and
`kappa ≤ ln(1 + eps)`.  This corrects the claimed `0 < IC ≤ 1` and
`kappa ≤ 0`: at `t = 0` the entropy `S = -ln(1 + eps)` is negative, making
`IC = 1 + eps > 1` and `kappa = ln(1 + eps) > 0`, and at a step with
`omega = 1` the fidelity factor vanishes, making `IC = 0`
(see `C1_counterexample`). -/
theorem C1_amended_record_bounds (xRaw : List ℚ) (a b : ℚ) (recs : List InvariantRecord)
    (h : compute_invariants xRaw a b (1e-8) 3 1 = some recs) :
    ∀ rec ∈ recs, 0 ≤ rec.omega ∧ 0 ≤ rec.xhat ∧ rec.xhat ≤ 1 ∧
      0 ≤ rec.IC ∧ rec.IC ≤ 1 + 1e-8 ∧ rec.kappa ≤ Real.log (1 + 1e-8) := by
  intro rec hrec
  unfold compute_invariants at h
  by_cases hb : b ≤ 0
  · rw [if_pos hb] at h
    exact absurd h (by simp)
  rw [if_neg hb] at h
  by_cases hgate : (compute_omega (xRaw.map (fun x => (x - a) / b))).all
      (fun w => decide (0 < 1 - w + (1e-8 : ℚ))) = true
  swap
  · rw [if_neg hgate] at h
    exact absurd h (by simp)
  rw [if_pos hgate] at h
  have hall : ∀ w ∈ compute_omega (xRaw.map (fun x => (x - a) / b)),
      0 < 1 - w + (1e-8 : ℚ) := by
    simpa [List.all_eq_true] using hgate
  rw [← Option.some.inj h] at hrec
  obtain ⟨i, hi, rfl⟩ := List.mem_map.mp hrec
  have hi' : i < xRaw.length := List.mem_range.mp hi
  have homl : (compute_omega (xRaw.map (fun x => (x - a) / b))).length = xRaw.length := by
    unfold compute_omega
    simp only [List.length_cons, List.length_zipWith, List.length_tail, List.length_map]
    omega
  have hw0 : 0 ≤ (compute_omega (xRaw.map (fun x => (x - a) / b))).getD i 0 :=
    getD_of_forall_mem _ _ _ (compute_omega_mem_nonneg _) le_rfl
  have hw1 : (compute_omega (xRaw.map (fun x => (x - a) / b))).getD i 0 < 1 + 1e-8 := by
    have hgot : 0 < 1 - (compute_omega (xRaw.map (fun x => (x - a) / b))).getD i 0 + (1e-8 : ℚ) :=
      getD_of_forall_mem _ _ _ hall (by norm_num)
    linarith
  have hFi : (compute_fidelity (compute_omega (xRaw.map (fun x => (x - a) / b)))).getD i 0 =
      1 - (compute_omega (xRaw.map (fun x => (x - a) / b))).getD i 0 := by
    unfold compute_fidelity
    exact getD_map_eq _ _ i (by rw [homl]; exact hi') 0 0
  have hSi : (entropy_values (compute_omega (xRaw.map (fun x => (x - a) / b))) (1e-8)).getD i 0 =
      -Real.log (((1 - (compute_omega (xRaw.map (fun x => (x - a) / b))).getD i 0 + 1e-8 : ℚ) : ℝ)) := by
    unfold entropy_values
    exact getD_map_eq _ _ i (by rw [homl]; exact hi') 0 0
  have hC0 : (0 : ℚ) ≤ (compute_curvature ((xRaw.map (fun x => (x - a) / b)).map clip01) 3).getD i 0 :=
    getD_of_forall_mem _ _ _ (compute_curvature_mem_nonneg _ _) le_rfl
  have hbounds := integrity_coefficient_bounds
    (((compute_omega (xRaw.map (fun x => (x - a) / b))).getD i 0 : ℚ) : ℝ)
    ((1e-8 : ℚ) : ℝ)
    (((compute_curvature ((xRaw.map (fun x => (x - a) / b)).map clip01) 3).getD i 0 : ℚ) : ℝ)
    (((pipeline_tau_R ((xRaw.map (fun x => (x - a) / b)).map clip01)).getD i 0 : ℕ) : ℝ)
    (by exact_mod_cast hw0) (by exact_mod_cast hw1) (by norm_num) (by norm_num)
    (by exact_mod_cast hC0) (by positivity)
  refine ⟨hw0, ?_, ?_, ?_, ?_, ?_⟩
  · show 0 ≤ ((xRaw.map (fun x => (x - a) / b)).map clip01).getD i 0
    refine getD_of_forall_mem _ _ _ ?_ le_rfl
    intro x hx
    obtain ⟨v, -, rfl⟩ := List.mem_map.mp hx
    exact clip01_nonneg v
  · show ((xRaw.map (fun x => (x - a) / b)).map clip01).getD i 0 ≤ 1
    refine @getD_of_forall_mem ℚ (fun x => x ≤ 1) _ 0 i ?_ (by norm_num)
    intro x hx
    obtain ⟨v, -, rfl⟩ := List.mem_map.mp hx
    exact clip01_le_one v
  · show 0 ≤ compute_integrity_coefficient
      (((compute_fidelity (compute_omega (xRaw.map (fun x => (x - a) / b)))).getD i 0 : ℚ) : ℝ)
      ((entropy_values (compute_omega (xRaw.map (fun x => (x - a) / b))) (1e-8)).getD i 0)
      (((compute_omega (xRaw.map (fun x => (x - a) / b))).getD i 0 : ℚ) : ℝ)
      (((compute_curvature ((xRaw.map (fun x => (x - a) / b)).map clip01) 3).getD i 0 : ℚ) : ℝ)
      (((pipeline_tau_R ((xRaw.map (fun x => (x - a) / b)).map clip01)).getD i 0 : ℕ) : ℝ)
      ((1 : ℚ) : ℝ)
    rw [hFi, hSi]
    push_cast
    exact hbounds.1
  · show compute_integrity_coefficient
      (((compute_fidelity (compute_omega (xRaw.map (fun x => (x - a) / b)))).getD i 0 : ℚ) : ℝ)
      ((entropy_values (compute_omega (xRaw.map (fun x => (x - a) / b))) (1e-8)).getD i 0)
      (((compute_omega (xRaw.map (fun x => (x - a) / b))).getD i 0 : ℚ) : ℝ)
      (((compute_curvature ((xRaw.map (fun x => (x - a) / b)).map clip01) 3).getD i 0 : ℚ) : ℝ)
      (((pipeline_tau_R ((xRaw.map (fun x => (x - a) / b)).map clip01)).getD i 0 : ℕ) : ℝ)
      ((1 : ℚ) : ℝ) ≤ 1 + 1e-8
    rw [hFi, hSi]
    push_cast
    convert hbounds.2.1 using 2
  · show compute_kappa (compute_integrity_coefficient
      (((compute_fidelity (compute_omega (xRaw.map (fun x => (x - a) / b)))).getD i 0 : ℚ) : ℝ)
      ((entropy_values (compute_omega (xRaw.map (fun x => (x - a) / b))) (1e-8)).getD i 0)
      (((compute_omega (xRaw.map (fun x => (x - a) / b))).getD i 0 : ℚ) : ℝ)
      (((compute_curvature ((xRaw.map (fun x => (x - a) / b)).map clip01) 3).getD i 0 : ℚ) : ℝ)
      (((pipeline_tau_R ((xRaw.map (fun x => (x - a) / b)).map clip01)).getD i 0 : ℕ) : ℝ)
      ((1 : ℚ) : ℝ)) ≤ Real.log (1 + 1e-8)
    rw [hFi, hSi]
    push_cast
    convert hbounds.2.2 using 3

/-- Counterexample to C1 as stated: on the raw series `[0, 1]` with
`a = 0`, `b = 1` (defaults otherwise), the record at `t = 0` has
`IC = 1 + 1e-8 > 1` and `kappa = ln(1 + 1e-8) > 0` (the entropy
`S = -ln(1 + eps)` is negative there), violating `IC ≤ 1` and
`kappa ≤ 0`; and the record at `t = 1` (drift `omega = 1`) has `IC = 0`,
violating `0 < IC`. -/
theorem C1_counterexample :
    1 < (((compute_invariants [0, 1] 0 1 (1e-8) 3 1).getD []).getD 0 default).IC ∧
    0 < (((compute_invariants [0, 1] 0 1 (1e-8) 3 1).getD []).getD 0 default).kappa ∧
    (((compute_invariants [0, 1] 0 1 (1e-8) 3 1).getD []).getD 1 default).IC = 0 := by
  have hy1 : ([0, 1] : List ℚ).map (fun x => (x - 0) / 1) = [0, 1] := by norm_num
  have homega1 : compute_omega [0, 1] = [0, 1] := by
    unfold compute_omega
    norm_num
  have hxh1 : ([0, 1] : List ℚ).map clip01 = [0, 1] := by
    unfold clip01
    norm_num [min_def, max_def]
  have hcf : compute_fidelity [0, 1] = [1, 0] := by
    unfold compute_fidelity
    norm_num
  have hcc : compute_curvature [0, 1] 3 = [0, 0] := by
    unfold compute_curvature
    rw [show List.range ([0, 1] : List ℚ).length = [0, 1] from rfl]
    norm_num
  have hinv : compute_invariants [0, 1] 0 1 (1e-8) 3 1 =
      some [invariant_record_at [0, 1] 0 1 (1e-8) 3 1 0,
            invariant_record_at [0, 1] 0 1 (1e-8) 3 1 1] := by
    unfold compute_invariants
    rw [if_neg (by norm_num), hy1, homega1,
      if_pos (by
        simp only [List.all_cons, List.all_nil, Bool.and_eq_true, decide_eq_true_eq]
        norm_num)]
    rfl
  rw [hinv]
  simp only [Option.getD_some, List.getD_cons_zero, List.getD_cons_succ]
  have hIC0 : (invariant_record_at [0, 1] 0 1 (1e-8) 3 1 0).IC = ((1 + 1e-8 : ℚ) : ℝ) := by
    simp only [invariant_record_at]
    rw [hy1, homega1, hxh1, hcf, hcc]
    simp only [entropy_values, List.map_cons, List.map_nil, List.getD_cons_zero]
    unfold compute_integrity_coefficient
    rw [neg_neg, Real.exp_log (by push_cast; norm_num)]
    push_cast
    norm_num [Real.exp_zero]
  have hkap0 : (invariant_record_at [0, 1] 0 1 (1e-8) 3 1 0).kappa =
      compute_kappa ((invariant_record_at [0, 1] 0 1 (1e-8) 3 1 0).IC) := rfl
  refine ⟨?_, ?_, ?_⟩
  · rw [hIC0]
    push_cast
    norm_num
  · rw [hkap0, hIC0]
    unfold compute_kappa
    rw [max_eq_left (by push_cast; norm_num)]
    apply Real.log_pos
    push_cast
    norm_num
  · simp only [invariant_record_at]
    rw [hy1, homega1, hxh1, hcf]
    simp only [List.getD_cons_zero, List.getD_cons_succ]
    unfold compute_integrity_coefficient
    push_cast
    ring

/-- Witness for C1's amended bounds at the concrete one-point series
`[0]` with `a = 0`, `b = 1`. -/
theorem C1_amended_record_bounds_witness :
    0 ≤ (invariant_record_at [0] 0 1 (1e-8) 3 1 0).omega ∧
    0 ≤ (invariant_record_at [0] 0 1 (1e-8) 3 1 0).xhat ∧
    (invariant_record_at [0] 0 1 (1e-8) 3 1 0).xhat ≤ 1 ∧
    0 ≤ (invariant_record_at [0] 0 1 (1e-8) 3 1 0).IC ∧
    (invariant_record_at [0] 0 1 (1e-8) 3 1 0).IC ≤ 1 + 1e-8 ∧
    (invariant_record_at [0] 0 1 (1e-8) 3 1 0).kappa ≤ Real.log (1 + 1e-8) := by
  have h : compute_invariants [0] 0 1 (1e-8) 3 1 =
      some [invariant_record_at [0] 0 1 (1e-8) 3 1 0] := by
    unfold compute_invariants
    rw [if_neg (by norm_num),
      if_pos (by
        unfold compute_omega
        simp only [List.map_cons, List.map_nil, List.tail_cons, List.zipWith_nil_right,
          List.all_cons, List.all_nil, Bool.and_eq_true, decide_eq_true_eq]
        norm_num)]
    rfl
  exact C1_amended_record_bounds [0] 0 1 _ h _ (by simp)

end UMCP
